import Mathlib

/-!
Verification of the enhanced-table composition root and table context
(`src/components/enhanced-table/composition-pattern/root.tsx` and
`src/components/enhanced-table/table-context.tsx`).

Column-order entries are JS strings; after a malformed drag event a slot can
hold `undefined`, so the order is modelled as `List (Option String)` where
`some s` is the string `s` and `none` is `undefined`.  Row records are
modelled as `Option α` for the same reason (sparse array slots read back as
`undefined`).
-/

/-- Column descriptor: the fields of a `ColumnDef` that the composer reads or
writes (`id`, `enableSorting`, `enableHiding`); header and cell renderers are
opaque UI values and are not modelled. -/
structure ColumnDef where
  id : Option String := none
  enableSorting : Option Bool := none
  enableHiding : Option Bool := none
deriving DecidableEq, Repr

/-- The synthetic combined selection-and-expansion column prepended when both
flags are set (root.tsx lines 72-109). -/
def selectExpandColumn : ColumnDef :=
  { id := some "select-expand", enableSorting := some false, enableHiding := some false }

/-- The synthetic selection column prepended when only selection is enabled
(root.tsx lines 111-132). -/
def selectColumn : ColumnDef :=
  { id := some "select", enableSorting := some false, enableHiding := some false }

/-- The synthetic expansion column prepended when only expansion is enabled
(root.tsx lines 134-156). -/
def expandColumn : ColumnDef :=
  { id := some "expand", enableSorting := some false, enableHiding := some false }

/-- Column augmentation, from `memoColumns` (root.tsx lines 68-160): copy the
caller's columns and prepend at most one synthetic control column depending on
the capability flags. -/
def memoColumns (columns : List ColumnDef) (enableSelection enableExpansion : Bool) :
    List ColumnDef :=
  if enableSelection && enableExpansion then
    selectExpandColumn :: columns
  else if enableSelection && !enableExpansion then
    selectColumn :: columns
  else if enableExpansion && !enableSelection then
    expandColumn :: columns
  else
    columns

/-- JS truthiness of a string: the empty string is falsy, every other string
is truthy. -/
def jsTruthyStr (s : String) : Bool := !(s == "")

/-- JS truthiness of `column.id` (a string or `undefined`). -/
def jsTruthyId : Option String → Bool
  | some s => jsTruthyStr s
  | none => false

/-- Initial column order, from root.tsx lines 162-164:
`memoColumns.map((column) => (enableColumnReorder && column.id ? column.id : ""))`. -/
def columnOrderInit (memoCols : List ColumnDef) (enableColumnReorder : Bool) :
    List (Option String) :=
  memoCols.map fun column =>
    some (if enableColumnReorder && jsTruthyId column.id then column.id.getD "" else "")

/-- Modelled from the spec: the spec's description of column-order
derivation — "each entry is the column's id if reordering is enabled and the
column declares an id, else an empty placeholder string".  Kept separate from
`columnOrderInit` so the two can be compared. -/
def specColumnOrderInit (memoCols : List ColumnDef) (enableColumnReorder : Bool) :
    List (Option String) :=
  memoCols.map fun column =>
    some (if enableColumnReorder then
            match column.id with
            | some s => s
            | none => ""
          else "")

/-- The reserved synthetic column ids excluded as drop targets
(root.tsx line 196). -/
def reservedIds : List String := ["select", "expand", "select-expand"]

/-- JS `Array.prototype.indexOf` on the column-order array: index of the first
slot strictly equal (`===`) to the string `x`, or `-1`.  An `undefined` slot is
never `===` to a string. -/
def jsIndexOf (l : List (Option String)) (x : String) : Int :=
  match l.findIdx? (· == some x) with
  | some i => (i : Int)
  | none => -1

/-- JS `Array.prototype.splice` start-index clamping: a negative start counts
back from the end (floored at 0), a non-negative start is capped at the
length. -/
def spliceStart (len : Nat) (start : Int) : Nat :=
  if start < 0 then (max ((len : Int) + start) 0).toNat else min start.toNat len

/-- JS `array.splice(start, 1)`: remove one element at the clamped start index
when it is in range; return the new array and the removed element
(`none` = nothing removed, so reading `[0]` of the returned array yields
`undefined`). -/
def jsSpliceRemoveOne (l : List (Option String)) (start : Int) :
    List (Option String) × Option (Option String) :=
  let s := spliceStart l.length start
  if h : s < l.length then (l.eraseIdx s, some l[s]) else (l, none)

/-- dnd-kit's `arrayMove(array, from, to)`:
`newArray.splice(to < 0 ? newArray.length + to : to, 0, newArray.splice(from, 1)[0])`.
The insertion position is computed against the length before the removal (JS
evaluates the first argument first), the removal then runs, and the removed
element — `undefined` when the removal was out of range — is inserted at the
clamped position. -/
def arrayMove (l : List (Option String)) (fromIdx toIdx : Int) : List (Option String) :=
  let insertPos : Int := if toIdx < 0 then (l.length : Int) + toIdx else toIdx
  let removal := jsSpliceRemoveOne l fromIdx
  removal.1.insertIdx (spliceStart removal.1.length insertPos) removal.2.join

/-- Drag-end handler, from `handleDragEnd` (root.tsx lines 194-203): when the
drag source and drop target are both present, their ids differ, and the target
id is not reserved, replace the column order with
`arrayMove(columnOrder, columnOrder.indexOf(active.id), columnOrder.indexOf(over.id))`;
otherwise leave it unchanged. -/
def handleDragEnd (active over : Option String) (columnOrder : List (Option String)) :
    List (Option String) :=
  match active, over with
  | some activeId, some overId =>
    if activeId != overId && !(reservedIds.contains overId) then
      arrayMove columnOrder (jsIndexOf columnOrder activeId) (jsIndexOf columnOrder overId)
    else
      columnOrder
  | _, _ => columnOrder

/-- Row edit callback, from `updateData` (root.tsx lines 60-66):
`const newData = [...prevData]; newData[rowIndex] = updatedData`.  A JS index
assignment replaces the slot when in range and otherwise grows the array to
`rowIndex + 1` slots, the gap filled with holes that read back as
`undefined`. -/
def updateData {α : Type} (prevData : List (Option α)) (rowIndex : Nat) (updatedData : α) :
    List (Option α) :=
  if rowIndex < prevData.length then
    prevData.set rowIndex (some updatedData)
  else
    prevData ++ List.replicate (rowIndex - prevData.length) none ++ [some updatedData]

/-- The context value (table-context.tsx lines 7-13) restricted to its
first-order fields; the engine instance and the update callback are opaque
higher-order values and are not modelled. -/
structure TableContextProps where
  enableEditing : Option Bool := none
  enableColumnReorder : Option Bool := none
  columnOrder : Option (List (Option String)) := none
deriving DecidableEq

/-- React context resolution: the stack of enclosing providers, nearest first;
`useContext` reads the nearest provided value, or the context default
(`undefined`) when no provider encloses the call site. -/
def useContextValue (providers : List TableContextProps) : Option TableContextProps :=
  providers.head?

/-- `useTableContext` (table-context.tsx lines 17-23): throw when the resolved
context value is falsy (`undefined`, i.e. no enclosing provider), else return
it. -/
def useTableContext (providers : List TableContextProps) :
    Except String TableContextProps :=
  match useContextValue providers with
  | none => Except.error "useTableContext must be used within a TableProvider"
  | some context => Except.ok context

/-! ### Helper lemmas -/

theorem findIdx?_beq_bounds {l : List (Option String)} {x : String} {i : Nat}
    (h : l.findIdx? (· == some x) = some i) :
    i < l.length ∧ l[i]? = some (some x) := by
  rw [List.findIdx?_eq_some_iff_getElem] at h
  obtain ⟨hi, hp, -⟩ := h
  refine ⟨hi, ?_⟩
  rw [List.getElem?_eq_getElem hi]
  simpa using hp

theorem jsIndexOf_eq_coe {l : List (Option String)} {x : String} {i : Nat}
    (h : l.findIdx? (· == some x) = some i) : jsIndexOf l x = (i : Int) := by
  simp [jsIndexOf, h]

theorem jsIndexOf_eq_negOne {l : List (Option String)} {x : String}
    (h : l.findIdx? (· == some x) = none) : jsIndexOf l x = -1 := by
  simp [jsIndexOf, h]

theorem handleDragEnd_fires (a o : String) (order : List (Option String))
    (hne : a ≠ o) (hres : o ∉ reservedIds) :
    handleDragEnd (some a) (some o) order =
      arrayMove order (jsIndexOf order a) (jsIndexOf order o) := by
  have hcond : (a != o && !reservedIds.contains o) = true := by
    simp [hne, hres]
  simp only [handleDragEnd]
  rw [hcond]
  simp

theorem arrayMove_coe_coe (l : List (Option String)) (i j : Nat) (v : Option String)
    (hi : l[i]? = some v) (hj : j < l.length) :
    arrayMove l (i : Int) (j : Int) = (l.eraseIdx i).insertIdx j v := by
  obtain ⟨hil, hv⟩ := List.getElem?_eq_some_iff.mp hi
  have hjn : ¬ ((j : Int) < 0) := by omega
  have hin : ¬ ((i : Int) < 0) := by omega
  have hmin : min i l.length = i := by omega
  simp only [arrayMove, jsSpliceRemoveOne, spliceStart, if_neg hjn, if_neg hin,
    Int.toNat_ofNat, hmin]
  rw [dif_pos hil]
  have hel : (l.eraseIdx i).length = l.length - 1 := List.length_eraseIdx_of_lt hil
  have hmin2 : min j (l.eraseIdx i).length = j := by omega
  simp [hmin2, hv]

theorem arrayMove_coe_negOne (l : List (Option String)) (i : Nat) (v : Option String)
    (hi : l[i]? = some v) :
    arrayMove l (i : Int) (-1) = l.eraseIdx i ++ [v] := by
  obtain ⟨hil, hv⟩ := List.getElem?_eq_some_iff.mp hi
  have hin : ¬ ((i : Int) < 0) := by omega
  have hneg : (-1 : Int) < 0 := by omega
  have hmin : min i l.length = i := by omega
  simp only [arrayMove, jsSpliceRemoveOne, spliceStart, if_pos hneg, if_neg hin,
    Int.toNat_ofNat, hmin]
  rw [dif_pos hil]
  have hel : (l.eraseIdx i).length = l.length - 1 := List.length_eraseIdx_of_lt hil
  have hpos : ¬ ((l.length : Int) + -1 < 0) := by omega
  have htn : ((l.length : Int) + -1).toNat = l.length - 1 := by omega
  have hmin2 : min (l.length - 1) (l.eraseIdx i).length = (l.eraseIdx i).length := by omega
  rw [if_neg hpos, htn, hmin2]
  simp [List.insertIdx_length_self, hv]

theorem relocate_length {α : Type} (l : List α) (i j : Nat) (x : α)
    (hi : i < l.length) (hj : j < l.length) :
    ((l.eraseIdx i).insertIdx j x).length = l.length := by
  have hel : (l.eraseIdx i).length = l.length - 1 := List.length_eraseIdx_of_lt hi
  rw [List.length_insertIdx _ _ (by omega)]
  omega

theorem relocate_getElem?_self {α : Type} (l : List α) (i j : Nat) (x : α)
    (hi : i < l.length) (hj : j < l.length) :
    ((l.eraseIdx i).insertIdx j x)[j]? = some x := by
  have hel : (l.eraseIdx i).length = l.length - 1 := List.length_eraseIdx_of_lt hi
  have hjl : j < ((l.eraseIdx i).insertIdx j x).length := by
    rw [relocate_length l i j x hi hj]; exact hj
  rw [List.getElem?_eq_getElem hjl, List.getElem_insertIdx_self _ _ _ (by omega)]

theorem relocate_getElem?_lt_lt {α : Type} (l : List α) (i j : Nat) (x : α)
    (hi : i < l.length) (hj : j < l.length) (k : Nat) (hki : k < i) (hkj : k < j) :
    ((l.eraseIdx i).insertIdx j x)[k]? = l[k]? := by
  have hel : (l.eraseIdx i).length = l.length - 1 := List.length_eraseIdx_of_lt hi
  have hkl : k < ((l.eraseIdx i).insertIdx j x).length := by
    rw [relocate_length l i j x hi hj]; omega
  rw [List.getElem?_eq_getElem hkl,
    List.getElem_insertIdx_of_lt _ _ _ _ hkj (by omega),
    List.getElem_eraseIdx_of_lt _ _ _ (by omega) hki,
    List.getElem?_eq_getElem (by omega : k < l.length)]

theorem relocate_getElem?_gt_gt {α : Type} (l : List α) (i j : Nat) (x : α)
    (hi : i < l.length) (hj : j < l.length) (k : Nat) (hik : i < k) (hjk : j < k) :
    ((l.eraseIdx i).insertIdx j x)[k]? = l[k]? := by
  have hel : (l.eraseIdx i).length = l.length - 1 := List.length_eraseIdx_of_lt hi
  by_cases hkl : k < l.length
  · obtain ⟨t, rfl⟩ : ∃ t, k = j + t + 1 := ⟨k - j - 1, by omega⟩
    have hrl : j + t + 1 < ((l.eraseIdx i).insertIdx j x).length := by
      rw [relocate_length l i (j : Nat) x hi hj]; omega
    rw [List.getElem?_eq_getElem hrl,
      List.getElem_insertIdx_add_succ _ _ _ _ (by omega),
      List.getElem_eraseIdx_of_ge _ _ _ (by omega) (by omega),
      List.getElem?_eq_getElem hkl]
  · rw [List.getElem?_eq_none (by omega : l.length ≤ k),
      List.getElem?_eq_none]
    rw [relocate_length l i j x hi hj]
    omega

theorem relocate_getElem?_shift_up {α : Type} (l : List α) (i j : Nat) (x : α)
    (hi : i < l.length) (hj : j < l.length) (k : Nat) (hik : i ≤ k) (hkj : k < j) :
    ((l.eraseIdx i).insertIdx j x)[k]? = l[k + 1]? := by
  have hel : (l.eraseIdx i).length = l.length - 1 := List.length_eraseIdx_of_lt hi
  have hkl : k < ((l.eraseIdx i).insertIdx j x).length := by
    rw [relocate_length l i j x hi hj]; omega
  rw [List.getElem?_eq_getElem hkl,
    List.getElem_insertIdx_of_lt _ _ _ _ hkj (by omega),
    List.getElem_eraseIdx_of_ge _ _ _ (by omega) hik,
    List.getElem?_eq_getElem (by omega : k + 1 < l.length)]

theorem relocate_getElem?_shift_down {α : Type} (l : List α) (i j : Nat) (x : α)
    (hi : i < l.length) (hj : j < l.length) (k : Nat) (hjk : j < k) (hki : k ≤ i) :
    ((l.eraseIdx i).insertIdx j x)[k]? = l[k - 1]? := by
  have hel : (l.eraseIdx i).length = l.length - 1 := List.length_eraseIdx_of_lt hi
  obtain ⟨t, rfl⟩ : ∃ t, k = j + t + 1 := ⟨k - j - 1, by omega⟩
  have hrl : j + t + 1 < ((l.eraseIdx i).insertIdx j x).length := by
    rw [relocate_length l i j x hi hj]; omega
  rw [List.getElem?_eq_getElem hrl,
    List.getElem_insertIdx_add_succ _ _ _ _ (by omega),
    List.getElem_eraseIdx_of_lt _ _ _ (by omega) (by omega),
    List.getElem?_eq_getElem (by omega : j + t + 1 - 1 < l.length)]
  simp

/-! ### Claim theorems -/

/-- C1: for every column-order list and every drag-end event whose source and
target are both present, have different ids, the target id is not reserved,
and both ids occur in the list (at first positions `i` and `j`), the handler
moves the element equal to the source id to the target's position: the result
is remove-at-`i`-then-insert-at-`j`, it keeps the length, puts the source id
at position `j`, leaves every element outside the span between `i` and `j` in
place, and shifts every element strictly between them by one slot; in
particular dragging id `A` onto `X` in `[X, A, Y]` yields `[A, X, Y]`. -/
theorem handleDragEnd_relocates_source_to_target (order : List (Option String))
    (a o : String) (i j : Nat)
    (ha : order.findIdx? (· == some a) = some i)
    (ho : order.findIdx? (· == some o) = some j)
    (hne : a ≠ o) (hres : o ∉ reservedIds) :
    handleDragEnd (some a) (some o) order = (order.eraseIdx i).insertIdx j (some a)
    ∧ (handleDragEnd (some a) (some o) order).length = order.length
    ∧ (handleDragEnd (some a) (some o) order)[j]? = some (some a)
    ∧ (∀ k : Nat, k < i → k < j → (handleDragEnd (some a) (some o) order)[k]? = order[k]?)
    ∧ (∀ k : Nat, i < k → j < k → (handleDragEnd (some a) (some o) order)[k]? = order[k]?)
    ∧ (∀ k : Nat, i ≤ k → k < j → (handleDragEnd (some a) (some o) order)[k]? = order[k + 1]?)
    ∧ (∀ k : Nat, j < k → k ≤ i → (handleDragEnd (some a) (some o) order)[k]? = order[k - 1]?)
    ∧ handleDragEnd (some "A") (some "X") [some "X", some "A", some "Y"]
        = [some "A", some "X", some "Y"] := by
  obtain ⟨hil, hiv⟩ := findIdx?_beq_bounds ha
  obtain ⟨hjl, hjv⟩ := findIdx?_beq_bounds ho
  have hred : handleDragEnd (some a) (some o) order
      = (order.eraseIdx i).insertIdx j (some a) := by
    rw [handleDragEnd_fires a o order hne hres, jsIndexOf_eq_coe ha, jsIndexOf_eq_coe ho,
      arrayMove_coe_coe order i j (some a) hiv hjl]
  refine ⟨hred, ?_, ?_, ?_, ?_, ?_, ?_, by decide⟩
  · rw [hred]; exact relocate_length order i j (some a) hil hjl
  · rw [hred]; exact relocate_getElem?_self order i j (some a) hil hjl
  · intro k hki hkj
    rw [hred]; exact relocate_getElem?_lt_lt order i j (some a) hil hjl k hki hkj
  · intro k hik hjk
    rw [hred]; exact relocate_getElem?_gt_gt order i j (some a) hil hjl k hik hjk
  · intro k hik hkj
    rw [hred]; exact relocate_getElem?_shift_up order i j (some a) hil hjl k hik hkj
  · intro k hjk hki
    rw [hred]; exact relocate_getElem?_shift_down order i j (some a) hil hjl k hjk hki

/-- Witness for C1 at the spec's own example: in `[X, A, Y]`, dragging `A`
onto `X` relocates index 1 to index 0. -/
theorem handleDragEnd_relocates_source_to_target_witness :
    ([some "X", some "A", some "Y"] : List (Option String)).findIdx? (· == some "A") = some 1
    ∧ handleDragEnd (some "A") (some "X") [some "X", some "A", some "Y"]
        = (([some "X", some "A", some "Y"] : List (Option String)).eraseIdx 1).insertIdx 0
            (some "A") :=
  ⟨by decide,
    (handleDragEnd_relocates_source_to_target [some "X", some "A", some "Y"] "A" "X" 1 0
      (by decide) (by decide) (by decide) (by decide)).1⟩

/-- C2: a drag-end event with an absent endpoint, identical endpoint ids, or a
reserved target id (`select`, `expand`, `select-expand`) leaves the
column-order list unchanged. -/
theorem handleDragEnd_noop (active over : Option String) (order : List (Option String))
    (h : active = none ∨ over = none ∨ active = over
        ∨ ∃ o, over = some o ∧ o ∈ reservedIds) :
    handleDragEnd active over order = order := by
  match active, over with
  | none, _ => rfl
  | some a, none => rfl
  | some a, some o =>
    rcases h with h | h | h | ⟨o2, ho2, hmem⟩
    · exact absurd h (by simp)
    · exact absurd h (by simp)
    · injection h with h
      subst h
      simp [handleDragEnd]
    · injection ho2 with ho2
      subst ho2
      simp [handleDragEnd, hmem]

/-- Witness for C2: dropping onto the reserved `select` column id is a
no-op. -/
theorem handleDragEnd_noop_witness :
    handleDragEnd (some "a") (some "select") [some "a", some "select"]
      = [some "a", some "select"] :=
  handleDragEnd_noop _ _ _ (Or.inr (Or.inr (Or.inr ⟨"select", rfl, by decide⟩)))

/-- C3 is false as stated: a present, non-reserved drop target whose id does
not occur in the column-order list does not degrade to a no-op — dragging `A`
over the absent id `Z` in `[X, A, Y]` changes the order (to `[X, Y, A]`). -/
theorem handleDragEnd_missing_target_counterexample :
    handleDragEnd (some "A") (some "Z") [some "X", some "A", some "Y"]
      ≠ [some "X", some "A", some "Y"] := by decide

/-- C3 amended: with a present source id occurring in the list (first position
`i`) and a present, non-reserved target id that does not occur in the list,
the handler raises no error but is not a no-op: `indexOf` yields `-1` for the
target, and `arrayMove` then moves the source element to the end of the
list. -/
theorem handleDragEnd_missing_target_appends (order : List (Option String))
    (a o : String) (i : Nat)
    (ha : order.findIdx? (· == some a) = some i)
    (ho : order.findIdx? (· == some o) = none)
    (hne : a ≠ o) (hres : o ∉ reservedIds) :
    handleDragEnd (some a) (some o) order = order.eraseIdx i ++ [some a] := by
  obtain ⟨hil, hiv⟩ := findIdx?_beq_bounds ha
  rw [handleDragEnd_fires a o order hne hres, jsIndexOf_eq_coe ha, jsIndexOf_eq_negOne ho,
    arrayMove_coe_negOne order i (some a) hiv]

/-- Witness for the amended C3: dragging `A` over the absent id `Z` in
`[X, A, Y]` moves `A` to the end. -/
theorem handleDragEnd_missing_target_appends_witness :
    ([some "X", some "A", some "Y"] : List (Option String)).findIdx? (· == some "Z") = none
    ∧ handleDragEnd (some "A") (some "Z") [some "X", some "A", some "Y"]
        = ([some "X", some "A", some "Y"] : List (Option String)).eraseIdx 1 ++ [some "A"] :=
  ⟨by decide,
    handleDragEnd_missing_target_appends [some "X", some "A", some "Y"] "A" "Z" 1
      (by decide) (by decide) (by decide) (by decide)⟩

/-- C4: for every row data set of length `N`, every index `i < N`, and every
record `r`, `updateData i r` keeps the length, stores `r` at index `i`, and
leaves every other index unchanged in order. -/
theorem updateData_replaces_in_range {α : Type} (l : List (Option α)) (i : Nat) (r : α)
    (hi : i < l.length) :
    (updateData l i r).length = l.length
    ∧ (updateData l i r)[i]? = some (some r)
    ∧ ∀ j : Nat, j ≠ i → (updateData l i r)[j]? = l[j]? := by
  simp only [updateData, if_pos hi]
  refine ⟨List.length_set l i (some r), List.getElem?_set_self hi, ?_⟩
  intro j hj
  exact List.getElem?_set_ne (fun h => hj h.symm)

/-- Witness for C4: replacing index 1 of a three-row set. -/
theorem updateData_replaces_in_range_witness :
    1 < ([some 10, some 20, some 30] : List (Option Nat)).length
    ∧ (updateData [some 10, some 20, some 30] 1 99).length
        = ([some 10, some 20, some 30] : List (Option Nat)).length :=
  ⟨by decide, (updateData_replaces_in_range [some 10, some 20, some 30] 1 99 (by decide)).1⟩

/-- C10: for every row data set of length `N` and every index `i ≥ N`,
`updateData i r` neither no-ops nor raises: the result has length `i + 1`,
holds `r` at index `i`, leaves the first `N` slots unchanged, and fills the
slots from `N` to `i - 1` with `undefined`. -/
theorem updateData_extends_out_of_range {α : Type} (l : List (Option α)) (i : Nat) (r : α)
    (hi : l.length ≤ i) :
    (updateData l i r).length = i + 1
    ∧ (updateData l i r)[i]? = some (some r)
    ∧ (∀ j : Nat, j < l.length → (updateData l i r)[j]? = l[j]?)
    ∧ (∀ j : Nat, l.length ≤ j → j < i → (updateData l i r)[j]? = some none) := by
  have hnot : ¬ i < l.length := by omega
  simp only [updateData, if_neg hnot]
  refine ⟨?_, ?_, ?_, ?_⟩
  · simp only [List.length_append, List.length_replicate, List.length_cons, List.length_nil]
    omega
  · rw [List.append_assoc, List.getElem?_append_right hi]
    rw [List.getElem?_append_right (by simp)]
    simp
  · intro j hj
    rw [List.append_assoc, List.getElem?_append_left hj]
  · intro j hjl hji
    rw [List.append_assoc, List.getElem?_append_right hjl]
    rw [List.getElem?_append_left (by simp [List.length_replicate]; omega)]
    exact List.getElem?_replicate_of_lt (by omega)

/-- Witness for C10: writing index 4 of a two-row set extends it to five
slots with two `undefined` holes. -/
theorem updateData_extends_out_of_range_witness :
    ([some 10, some 20] : List (Option Nat)).length ≤ 4
    ∧ (updateData [some 10, some 20] 4 99).length = 4 + 1 :=
  ⟨by decide, (updateData_extends_out_of_range [some 10, some 20] 4 99 (by decide)).1⟩

/-- C5: for every base column list and flag combination, the augmented column
count is the base count plus one when either capability flag is set and plus
zero when both are unset; with selection only and three base columns the
augmented list has four entries and its first id is `select`. -/
theorem memoColumns_length (cols : List ColumnDef) (s e : Bool) :
    (memoColumns cols s e).length = cols.length + (if s || e then 1 else 0)
    ∧ ∀ c1 c2 c3 : ColumnDef,
        (memoColumns [c1, c2, c3] true false).length = 4
        ∧ (memoColumns [c1, c2, c3] true false).head?.map ColumnDef.id
            = some (some "select") := by
  constructor
  · cases s <;> cases e <;> simp [memoColumns]
  · intro c1 c2 c3
    exact ⟨rfl, rfl⟩

/-- C6: with both capability flags unset, column augmentation is the
identity. -/
theorem memoColumns_id_when_disabled (cols : List ColumnDef) :
    memoColumns cols false false = cols := rfl

/-- C7: the initial column order maps each augmented column to its id when
reordering is enabled and the column declares a (truthy) id, and to the empty
string otherwise — this agrees with the spec's description — and with
reordering unset every entry is the empty string. -/
theorem columnOrderInit_eq_spec (cols : List ColumnDef) (reorder : Bool) :
    columnOrderInit cols reorder = specColumnOrderInit cols reorder
    ∧ columnOrderInit cols false = cols.map fun _ => some "" := by
  constructor
  · unfold columnOrderInit specColumnOrderInit
    apply List.map_congr_left
    intro c _
    cases reorder with
    | false => simp
    | true =>
      cases hc : c.id with
      | none => simp [jsTruthyId]
      | some str => by_cases hs : str = "" <;> simp [jsTruthyId, jsTruthyStr, hs]
  · unfold columnOrderInit
    simp

theorem spliceStart_le (len : Nat) (start : Int) : spliceStart len start ≤ len := by
  unfold spliceStart
  split <;> omega

theorem spliceStart_jsIndexOf_lt (l : List (Option String)) (hl : 0 < l.length)
    (x : String) : spliceStart l.length (jsIndexOf l x) < l.length := by
  unfold jsIndexOf
  cases h : l.findIdx? (· == some x) with
  | none =>
    simp only
    unfold spliceStart
    rw [if_pos (by omega : (-1 : Int) < 0)]
    omega
  | some i =>
    obtain ⟨hil, -⟩ := findIdx?_beq_bounds h
    simp only
    unfold spliceStart
    rw [if_neg (by omega : ¬ ((i : Int) < 0))]
    omega

theorem arrayMove_length_of_remove_lt (l : List (Option String))
    (fromIdx toIdx : Int) (hfi : spliceStart l.length fromIdx < l.length) :
    (arrayMove l fromIdx toIdx).length = l.length := by
  simp only [arrayMove, jsSpliceRemoveOne]
  rw [dif_pos hfi]
  simp only
  rw [List.length_insertIdx _ _ (spliceStart_le _ _), List.length_eraseIdx_of_lt hfi]
  omega

theorem handleDragEnd_preserves_length (active over : Option String)
    (order : List (Option String)) (hne : order ≠ []) :
    (handleDragEnd active over order).length = order.length := by
  have hn : 0 < order.length := List.length_pos.mpr hne
  match active, over with
  | none, _ => rfl
  | some a, none => rfl
  | some a, some o =>
    simp only [handleDragEnd]
    split
    · exact arrayMove_length_of_remove_lt order _ _ (spliceStart_jsIndexOf_lt order hn a)
    · rfl

/-- C8 is false as stated: starting from a valid state (zero augmented
columns, so an empty column order whose length matches), a drag-end event with
present, distinct, non-reserved endpoints grows the order to one (`undefined`)
slot, breaking the length equality. -/
theorem columnOrder_length_counterexample :
    (columnOrderInit (memoColumns [] false false) true).length
        = (memoColumns [] false false).length
    ∧ (handleDragEnd (some "a") (some "b")
          (columnOrderInit (memoColumns [] false false) true)).length
        ≠ (memoColumns [] false false).length := by
  exact ⟨by decide, by decide⟩

/-- C8 amended: the column-order length equals the augmented-column-list
length at the initial derivation, and every drag-end event on a nonempty
column-order list (reordering or not) preserves the list's length; only the
degenerate empty list can change length under a firing event. -/
theorem columnOrder_length_invariant (cols : List ColumnDef) (s e r : Bool)
    (order : List (Option String)) (active over : Option String)
    (hne : order ≠ []) :
    (columnOrderInit (memoColumns cols s e) r).length = (memoColumns cols s e).length
    ∧ (handleDragEnd active over order).length = order.length :=
  ⟨by simp [columnOrderInit], handleDragEnd_preserves_length active over order hne⟩

/-- Witness for the amended C8 on a one-column table and a firing drag
event. -/
theorem columnOrder_length_invariant_witness :
    ([some "x"] : List (Option String)) ≠ []
    ∧ ((columnOrderInit (memoColumns [] false false) true).length
          = (memoColumns [] false false).length
        ∧ (handleDragEnd (some "x") (some "y") [some "x"]).length
            = ([some "x"] : List (Option String)).length) :=
  ⟨by decide,
    columnOrder_length_invariant [] false false true [some "x"] (some "x") (some "y")
      (by decide)⟩

/-- C9 is false as stated: the error raised when consuming the context outside
any provider does not carry the message `must be used within a Provider` (the
code's message is `useTableContext must be used within a TableProvider`). -/
theorem useTableContext_message_counterexample :
    useTableContext [] ≠ Except.error "must be used within a Provider" := by
  intro h
  have hmsg : "useTableContext must be used within a TableProvider"
      = "must be used within a Provider" := by
    injection h
  exact absurd hmsg (by decide)

/-- C9 amended: consuming the shared table context raises an error if and only
if no provider encloses the call site, with the message
`useTableContext must be used within a TableProvider`; inside a provided
subtree it returns the nearest enclosing provided value without error. -/
theorem useTableContext_spec (providers : List TableContextProps) :
    (useTableContext providers
        = Except.error "useTableContext must be used within a TableProvider"
      ↔ providers = [])
    ∧ ∀ (v : TableContextProps) (rest : List TableContextProps),
        useTableContext (v :: rest) = Except.ok v := by
  constructor
  · cases providers with
    | nil => simp [useTableContext, useContextValue]
    | cons v rest => simp [useTableContext, useContextValue]
  · intro v rest
    rfl
